import Mathlib

/-!
Shallow embedding of the Laghos Lagrangian hydrodynamics right-hand-side
evaluator, translated from `laghos_solver.cpp` and `laghos_assembly.hpp`.

Scalars are modelled as rationals.  The time-step estimate `dt_est` is a
C++ `double` that the code initializes to `numeric_limits<double>::infinity()`
and that can become infinite through division by a zero sound speed, so it is
modelled by `RVal`, a rational extended with IEEE-754 special values.
Quantities that the code obtains from the external MFEM library through
irrational functions (eigenvalues from `CalcEigenvalues`, the length scale
`h` built from vector norms, the sound speed `sqrt(gamma*(gamma-1)*e)`) enter
the per-point update as inputs; theorems that depend on their defining
properties carry those properties as hypotheses.
-/

/-- Scalar value model for the C++ `double` slots that can hold IEEE-754
special values: a rational, `+inf`, `-inf`, or `NaN`. -/
inductive RVal where
  | fin : ℚ → RVal
  | inf : RVal
  | ninf : RVal
  | nan : RVal
deriving DecidableEq

/-- IEEE-754 strict `<` on `RVal`: every comparison involving `NaN` is false,
`-inf` is below every finite value, `+inf` above every finite value. -/
def RVal.ltb : RVal → RVal → Bool
  | .fin a, .fin b => decide (a < b)
  | .fin _, .inf => true
  | .ninf, .fin _ => true
  | .ninf, .inf => true
  | _, _ => false

/-- Reflexive closure of `RVal.ltb`, used to state monotone decrease. -/
def RVal.leb (a b : RVal) : Bool := decide (a = b) || RVal.ltb a b

/-- The C++ `std::min(a, b)`, which returns `b` when `b < a` and `a`
otherwise (so `min(x, NaN) = x` and `min(x, +inf) = x`). -/
def cppMin (a b : RVal) : RVal := if RVal.ltb b a then b else a

/-- IEEE-754 division of two finite doubles: for a zero divisor the result is
`+inf`, `-inf` or `NaN` according to the sign of the dividend. -/
def ieeeDiv (a b : ℚ) : RVal :=
  if b = 0 then (if 0 < a then .inf else if a < 0 then .ninf else .nan)
  else .fin (a / b)

/-- Configuration constants of `LagrangianHydroOperator` fixed at
construction (`laghos_solver.cpp` lines 83-106): the CFL number, the
adiabatic index `gamma`, the `use_viscosity` and `p_assembly` flags, and the
pluggable equation of state `MaterialPressure(rho, e)` (declared outside this
repository slice; the spec fixes it only as a pure function of density and
clamped specific energy, so it is a parameter here). -/
structure HydroConfig where
  cfl : ℚ
  gamma : ℚ
  use_viscosity : Bool
  p_assembly : Bool
  pressure : ℚ → ℚ → ℚ

/-- Per-quadrature-point inputs that `UpdateQuadratureData` reads from the
state vector through the external finite-element library
(`laghos_solver.cpp` lines 396-431): the weight-independent Jacobian
determinant `T->Weight()`, the integration-point weight `ip.weight`, the
energy value `e_vals(q)`, the velocity gradient `v.GetVectorGradient`, the
physical Jacobian `T->Jacobian()`, the smallest eigenvalue
`eig_val_data[0]` of the symmetrized velocity gradient as returned by
`DenseMatrix::CalcEigenvalues` (ascending order, so the most negative one),
the length scale `h = h0 * |ph_dir| / |compr_dir|` built from vector norms,
and the sound speed `sqrt(gamma*(gamma-1)*e)`.  The last three are
irrational in general and are therefore carried as input values. -/
structure QPointIn (d : ℕ) where
  detJ : ℚ
  weight : ℚ
  e_val : ℚ
  grad_v : Matrix (Fin d) (Fin d) ℚ
  Jpr : Matrix (Fin d) (Fin d) ℚ
  mu : ℚ
  h : ℚ
  soundSpeed : ℚ
deriving DecidableEq

/-- Per-point outputs of one iteration of the quadrature loop: the local
stress matrix, the scaled `stress * Jinv^T` entry written into the store,
and the updated running time-step estimate. -/
structure QPointOut (d : ℕ) where
  stress : Matrix (Fin d) (Fin d) ℚ
  stressJinvT : Matrix (Fin d) (Fin d) ℚ
  dt_est : RVal
deriving DecidableEq

/-- Fatal faults of the evaluator; `geometryFault` is the
`MFEM_VERIFY(detJ > 0.0, "Bad Jacobian determinant")` abort at
`laghos_solver.cpp` line 406, carrying the offending determinant. -/
inductive HydroFault where
  | geometryFault : ℚ → HydroFault
deriving DecidableEq

/-- The MFEM `CalcInverse` of a square matrix, `det⁻¹ • adjugate`. -/
def calcInverse {d : ℕ} (A : Matrix (Fin d) (Fin d) ℚ) :
    Matrix (Fin d) (Fin d) ℚ :=
  A.det⁻¹ • A.adjugate

/-- The MFEM `DenseMatrix::Symmetrize`, replacing `A` by `(A + A^T)/2`. -/
def symmetrize {d : ℕ} (A : Matrix (Fin d) (Fin d) ℚ) :
    Matrix (Fin d) (Fin d) ℚ :=
  (1/2 : ℚ) • (A + A.transpose)

/-- Density at a quadrature point, `laghos_solver.cpp` line 409:
`rho = quad_data.rho0DetJ0w(i*nqp + q) / detJ / ip.weight`. -/
def pointRho {d : ℕ} (rho0DetJ0w : ℚ) (pin : QPointIn d) : ℚ :=
  rho0DetJ0w / pin.detJ / pin.weight

/-- The artificial-viscosity coefficient, `laghos_solver.cpp` lines 437-439:
`visc_coeff = 2 * rho * h * h * fabs(mu)`, plus
`0.5 * rho * h * sound_speed` when `mu < 0`. -/
def viscCoeff {d : ℕ} (rho0DetJ0w : ℚ) (pin : QPointIn d) : ℚ :=
  2 * pointRho rho0DetJ0w pin * pin.h * pin.h * |pin.mu| +
    (if pin.mu < 0
     then (1/2) * pointRho rho0DetJ0w pin * pin.h * pin.soundSpeed
     else 0)

/-- The local stress matrix of one quadrature point,
`laghos_solver.cpp` lines 408-441: zero the matrix, put
`-MaterialPressure(rho, max(0, e))` on the diagonal, and, when
`use_viscosity` is set, add `visc_coeff * sgrad_v` where `sgrad_v` is the
symmetrized velocity gradient. -/
def pointStress {d : ℕ} (cfg : HydroConfig) (rho0DetJ0w : ℚ)
    (pin : QPointIn d) : Matrix (Fin d) (Fin d) ℚ :=
  let stress0 : Matrix (Fin d) (Fin d) ℚ :=
    Matrix.of fun i j =>
      if i = j
      then -(cfg.pressure (pointRho rho0DetJ0w pin) (max 0 pin.e_val))
      else 0
  if cfg.use_viscosity
  then stress0 + viscCoeff rho0DetJ0w pin • symmetrize pin.grad_v
  else stress0

/-- Body of the quadrature loop of
`LagrangianHydroOperator::UpdateQuadratureData`
(`laghos_solver.cpp` lines 399-453) for one quadrature point: verify
`detJ > 0` (else the `MFEM_VERIFY` aborts before any per-point quantity is
computed from `detJ`), fold the CFL candidate `cfl * h / sound_speed` into
the running minimum `dt_est`, and form the stored entry
`stressJinvT = (stress * Jinv^T) * (ip.weight * detJ)` with
`Jinv = CalcInverse(Jpr)`. -/
def pointUpdate {d : ℕ} (cfg : HydroConfig) (rho0DetJ0w : ℚ)
    (pin : QPointIn d) (dt_est : RVal) :
    Except HydroFault (QPointOut d) :=
  if 0 < pin.detJ then
    Except.ok
      { stress := pointStress cfg rho0DetJ0w pin
        stressJinvT := (pin.weight * pin.detJ) •
          (pointStress cfg rho0DetJ0w pin * (calcInverse pin.Jpr).transpose)
        dt_est := cppMin dt_est (ieeeDiv (cfg.cfl * pin.h) pin.soundSpeed) }
  else Except.error (HydroFault.geometryFault pin.detJ)

/-- The quadrature-point store of `struct QuadratureData`
(`laghos_assembly.hpp` lines 35-78), flattened over the global point index
`zone * pointsPerZone + point`.  `stress` and `Jac` are the per-point
`DenseTensor` fields declared in the header; `Jac0inv`, `rho0DetJ0w` and
`h0` are the reference quantities written once by the constructor
(`laghos_solver.cpp` lines 127-167); `stressJinvT` and `dt_est` are the
fields written by `UpdateQuadratureData`. -/
structure QuadDataM (d : ℕ) where
  stress : ℕ → Matrix (Fin d) (Fin d) ℚ
  Jac : ℕ → Matrix (Fin d) (Fin d) ℚ
  Jac0inv : ℕ → Matrix (Fin d) (Fin d) ℚ
  stressJinvT : ℕ → Matrix (Fin d) (Fin d) ℚ
  rho0DetJ0w : ℕ → ℚ
  h0 : ℚ
  dt_est : RVal

/-- The mutable state of `LagrangianHydroOperator` relevant to the
quadrature engine: the store plus the `quad_data_is_current` memoization
flag. -/
structure HydroState (d : ℕ) where
  qd : QuadDataM d
  quad_data_is_current : Bool

/-- The quadrature sweep of `UpdateQuadratureData`
(`laghos_solver.cpp` lines 394-455): visit the points in order, thread the
running `dt_est`, and overwrite the `stressJinvT` entry of each visited
point; the first non-positive Jacobian determinant aborts the sweep.  The
counter is the flat point index `i*nqp + q`. -/
def sweep {d : ℕ} (cfg : HydroConfig) :
    ℕ → List (QPointIn d) → QuadDataM d → Except HydroFault (QuadDataM d)
  | _, [], qd => Except.ok qd
  | k, pin :: rest, qd =>
    match pointUpdate cfg (qd.rho0DetJ0w k) pin qd.dt_est with
    | Except.error f => Except.error f
    | Except.ok out =>
        sweep cfg (k+1) rest
          { qd with
            stressJinvT := Function.update qd.stressJinvT k out.stressJinvT
            dt_est := out.dt_est }

/-- `LagrangianHydroOperator::UpdateQuadratureData`
(`laghos_solver.cpp` lines 379-458): an immediate no-op when
`quad_data_is_current` is set; otherwise run the full sweep and set the
flag.  The per-point inputs `pins` stand for the values the sweep reads
from the state vector `S` through the finite-element library. -/
def updateQuadratureData {d : ℕ} (cfg : HydroConfig)
    (pins : List (QPointIn d)) (s : HydroState d) :
    Except HydroFault (HydroState d) :=
  if s.quad_data_is_current then Except.ok s
  else
    match sweep cfg 0 pins s.qd with
    | Except.error f => Except.error f
    | Except.ok qd1 => Except.ok { qd := qd1, quad_data_is_current := true }

/-- `LagrangianHydroOperator::ResetTimeStepEstimate`
(`laghos_solver.cpp` lines 345-348): set `quad_data.dt_est` to
`numeric_limits<double>::infinity()`. -/
def resetTimeStepEstimate {d : ℕ} (qd : QuadDataM d) : QuadDataM d :=
  { qd with dt_est := RVal.inf }

/-- `LagrangianHydroOperator::Mult` (`laghos_solver.cpp` lines 184-329):
refresh the quadrature data, compute the derivative blocks from the fresh
store (the force applications and CG solves, abstracted as `solves`), and
set `quad_data_is_current = false` on exit. -/
def multHydro {d : ℕ} {α : Type} (cfg : HydroConfig)
    (pins : List (QPointIn d)) (solves : HydroState d → α)
    (s : HydroState d) : Except HydroFault (α × HydroState d) :=
  match updateQuadratureData cfg pins s with
  | Except.error f => Except.error f
  | Except.ok s1 => Except.ok (solves s1, { s1 with quad_data_is_current := false })

/-- `MassPAOperator::EliminateRHS` (`laghos_assembly.hpp` lines 179-183):
record the essential dof array in `ess_tdofs` and zero the entries of `b`
at the listed indices, in order.  The result pairs the retained dof array
with the modified right-hand side. -/
def eliminateRHS {n : ℕ} (dofs : List (Fin n)) (b : Fin n → ℚ) :
    List (Fin n) × (Fin n → ℚ) :=
  (dofs, dofs.foldl (fun bb i => Function.update bb i 0) b)

/-- How a mass-matrix system is solved inside `Mult`: either an external
conjugate-gradient solver with the given relative tolerance, absolute
tolerance, iteration cap, and a flag recording whether essential dofs are
eliminated from the system, or the zone-local precomputed dense mass-matrix
inverses `Me_inv`. -/
inductive SolveMethod where
  | cg : ℚ → ℚ → ℕ → Bool → SolveMethod
  | localMassInverse : SolveMethod
deriving DecidableEq

/-- Embedding of the energy-update branch of `LagrangianHydroOperator::Mult`
(`laghos_solver.cpp` lines 288-325): with `p_assembly` a `CGSolver` is
configured on `EMassPA` with `SetRelTol(1e-8)`, `SetAbsTol(0.0)` and
`SetMaxIter(200)` and `EliminateRHS` is never invoked on it (no essential
dofs); without `p_assembly` the energy right-hand side is multiplied zone
by zone by the precomputed `Me_inv(i)` dense inverses — no CG solver is
constructed on that path. -/
def energySolveMethod (p_assembly : Bool) : SolveMethod :=
  if p_assembly then SolveMethod.cg (1/100000000) 0 200 false
  else SolveMethod.localMassInverse

/-- Modelled from the spec: the matrix-free force operator
(`ForcePAOperator`, declared at `laghos_assembly.hpp` lines 125-149; its
`Mult`/`MultTranspose` bodies live in `laghos_assembly.cpp`, which is not
part of this repository slice).  Per spec section 4.4, the operator is
determined by a per-zone local force matrix (the contraction of the
store's `forceCoeff`/`stressJinvT` tensors with the cached reference-element
basis gradients) together with gather/scatter maps from zone-local to
global energy-space and velocity-space degrees of freedom. -/
structure ForcePAModel (nz lH lL NH NL : ℕ) where
  localF : Fin nz → Matrix (Fin lH) (Fin lL) ℚ
  h1map : Fin nz → Fin lH → Fin NH
  l2map : Fin nz → Fin lL → Fin NL

/-- Modelled from the spec: `ForcePAOperator::Mult` — for each zone gather
the local energy-space values, contract with the zone's local force matrix,
and scatter-add into the global velocity-space output. -/
def ForcePAModel.mult {nz lH lL NH NL : ℕ} (m : ForcePAModel nz lH lL NH NL)
    (u : Fin NL → ℚ) : Fin NH → ℚ :=
  fun i => ∑ z, ∑ li,
    if m.h1map z li = i then ∑ lj, m.localF z li lj * u (m.l2map z lj) else 0

/-- Modelled from the spec: `ForcePAOperator::MultTranspose` — the adjoint
operation, gathering on the velocity space and scatter-adding on the energy
space with the transposed local matrices. -/
def ForcePAModel.multTranspose {nz lH lL NH NL : ℕ}
    (m : ForcePAModel nz lH lL NH NL) (w : Fin NH → ℚ) : Fin NL → ℚ :=
  fun j => ∑ z, ∑ lj,
    if m.l2map z lj = j then ∑ li, m.localF z li lj * w (m.h1map z li) else 0

/-- The euclidean inner product used by the adjointness property. -/
def dotQ {N : ℕ} (a b : Fin N → ℚ) : ℚ := ∑ i, a i * b i

/-- Modelled from the spec: the globally assembled force matrix of the
full-assembly path (`Force.Assemble()` / `ForceIntegrator`, assembled from
the same zone-local element matrices and dof maps, `laghos_solver.cpp`
lines 218-222 and 263-276). -/
def ForcePAModel.fullMatrix {nz lH lL NH NL : ℕ}
    (m : ForcePAModel nz lH lL NH NL) : Matrix (Fin NH) (Fin NL) ℚ :=
  Matrix.of fun i j => ∑ z, ∑ li, ∑ lj,
    if m.h1map z li = i ∧ m.l2map z lj = j then m.localF z li lj else 0

/-- Modelled from the spec: `x` solves the velocity mass system with
matrix `M`, essential dofs `ess` and right-hand side `rhs` — essential
entries are pinned to zero and the remaining rows of `M x = rhs` hold
exactly (the external CG solve in exact arithmetic). -/
def SolvesConstrained {NH : ℕ} (M : Matrix (Fin NH) (Fin NH) ℚ)
    (ess : Finset (Fin NH)) (rhs x : Fin NH → ℚ) : Prop :=
  (∀ i ∈ ess, x i = 0) ∧ ∀ i ∉ ess, M.mulVec x i = rhs i

/-- Concrete configuration used to exercise the theorems: CFL 1, adiabatic
index 3/2, viscosity on, partial assembly on, ideal-gas-like pressure. -/
def cfgV : HydroConfig :=
  { cfl := 1, gamma := 3/2, use_viscosity := true, p_assembly := true
    pressure := fun rho e => rho * e }

/-- Variant of `cfgV` with viscosity and partial assembly off. -/
def cfgN : HydroConfig :=
  { cfgV with use_viscosity := false, p_assembly := false }

/-- Concrete quadrature-point input with unit Jacobian, compressing
eigenvalue `-1`, length scale 2 and sound speed 1, so the CFL candidate is
`1 * 2 / 1 = 2`. -/
def pinU : QPointIn 2 :=
  { detJ := 1, weight := 1, e_val := 1, grad_v := 0, Jpr := 1
    mu := -1, h := 2, soundSpeed := 1 }

/-- Concrete point with specific energy exactly zero and hence zero sound
speed. -/
def pinZ : QPointIn 2 := { pinU with e_val := 0, soundSpeed := 0, mu := 0 }

/-- Concrete point with a degenerate (exactly zero) Jacobian determinant. -/
def pinBad : QPointIn 2 := { pinU with detJ := 0 }

/-- Concrete quadrature store with unit reference data and a finite
incoming time-step estimate of 1. -/
def qdBase : QuadDataM 2 :=
  { stress := fun _ => 0, Jac := fun _ => 0, Jac0inv := fun _ => 1
    stressJinvT := fun _ => 0, rho0DetJ0w := fun _ => 1, h0 := 1
    dt_est := RVal.fin 1 }

/-- Operator state with a stale store and `dt_est = 1`. -/
def sA : HydroState 2 := { qd := qdBase, quad_data_is_current := false }

/-- Operator state equal to `sA` except that its incoming time-step
estimate has been reset to `+inf`. -/
def sB : HydroState 2 :=
  { qd := { qdBase with dt_est := RVal.inf }, quad_data_is_current := false }

/-- Operator state equal to `sA` except that the store's `stress` field
holds the identity matrix at every point instead of zero. -/
def sD : HydroState 2 :=
  { qd := { qdBase with stress := fun _ => 1 }, quad_data_is_current := false }

/-- Operator state with a current (memoized) store. -/
def sT : HydroState 2 := { qd := qdBase, quad_data_is_current := true }

/-- Single-point input list whose CFL candidate is 2. -/
def pins1 : List (QPointIn 2) := [pinU]

/-- Projection of the time-step estimate out of an evaluation result. -/
def dtOf {d : ℕ} : Except HydroFault (HydroState d) → Option RVal
  | Except.ok s => some s.qd.dt_est
  | Except.error _ => none

/-- Projection of the store's `stress` field at point 0 out of an
evaluation result. -/
def stressAt0 {d : ℕ} :
    Except HydroFault (HydroState d) → Option (Matrix (Fin d) (Fin d) ℚ)
  | Except.ok s => some (s.qd.stress 0)
  | Except.error _ => none

/-- Concrete one-zone, one-dof force-operator model whose local force
matrix is the 1 x 1 matrix `(2)`. -/
def mC9 : ForcePAModel 1 1 1 1 1 :=
  { localF := fun _ => Matrix.of fun _ _ => 2
    h1map := fun _ _ => 0, l2map := fun _ _ => 0 }

/-- Concrete dof list and right-hand side for the elimination theorem. -/
def dofs3 : List (Fin 3) := [0, 2]

/-- Concrete right-hand side vector, constant 7. -/
def b3 : Fin 3 → ℚ := fun _ => 7

/-- A successful point update is exactly the guarded structure. -/
theorem pointUpdate_ok_eq {d : ℕ} (cfg : HydroConfig) (r : ℚ)
    (pin : QPointIn d) (dt : RVal) (hdet : 0 < pin.detJ) :
    pointUpdate cfg r pin dt = Except.ok
      { stress := pointStress cfg r pin
        stressJinvT := (pin.weight * pin.detJ) •
          (pointStress cfg r pin * (calcInverse pin.Jpr).transpose)
        dt_est := cppMin dt (ieeeDiv (cfg.cfl * pin.h) pin.soundSpeed) } := by
  unfold pointUpdate
  rw [if_pos hdet]

/-- A point update succeeds only when the Jacobian determinant is
positive. -/
theorem pointUpdate_ok_detJ {d : ℕ} {cfg : HydroConfig} {r : ℚ}
    {pin : QPointIn d} {dt : RVal} {out : QPointOut d}
    (h : pointUpdate cfg r pin dt = Except.ok out) : 0 < pin.detJ := by
  by_contra hn
  unfold pointUpdate at h
  rw [if_neg hn] at h
  exact Except.noConfusion h

/-- The updated estimate of a successful point update is the C++ `min` of
the incoming estimate and the CFL candidate. -/
theorem pointUpdate_ok_dt {d : ℕ} {cfg : HydroConfig} {r : ℚ}
    {pin : QPointIn d} {dt : RVal} {out : QPointOut d}
    (h : pointUpdate cfg r pin dt = Except.ok out) :
    out.dt_est = cppMin dt (ieeeDiv (cfg.cfl * pin.h) pin.soundSpeed) := by
  have hd := pointUpdate_ok_detJ h
  rw [pointUpdate_ok_eq cfg r pin dt hd] at h
  injection h with h
  rw [← h]

/-- A constant-diagonal matrix is that constant times the identity. -/
theorem diagConst_eq_smul_one {d : ℕ} (c : ℚ) :
    (Matrix.of fun i j => if i = j then c else 0) =
      c • (1 : Matrix (Fin d) (Fin d) ℚ) := by
  ext i j
  by_cases h : i = j <;> simp [Matrix.one_apply, h]

/-- The computed local stress in closed form: minus the pressure times the
identity, plus (only with viscosity enabled) the viscosity coefficient
times the symmetrized velocity gradient. -/
theorem pointStress_closed_form {d : ℕ} (cfg : HydroConfig) (r : ℚ)
    (pin : QPointIn d) :
    pointStress cfg r pin =
      (-(cfg.pressure (r / pin.detJ / pin.weight) (max 0 pin.e_val))) •
        (1 : Matrix (Fin d) (Fin d) ℚ) +
      (if cfg.use_viscosity
       then viscCoeff r pin • symmetrize pin.grad_v
       else 0) := by
  unfold pointStress pointRho
  cases hv : cfg.use_viscosity <;>
    simp [diagConst_eq_smul_one, pointRho]

/-- C1: for every quadrature point processed by the update engine (with
`detJ > 0`), the stress computed and stored (through `stressJinvT`) equals
`-pressure(rho0DetJ0w / detJ / weight, max(0, energy))` times the identity
matrix; when `use_viscosity` is enabled, `visc_coeff` times the symmetrized
velocity gradient is additionally added, where
`visc_coeff = 2 * rho * h^2 * |mu|` plus an extra
`0.5 * rho * h * sound_speed` only when `mu < 0`, `mu` being the most
negative eigenvalue of the symmetric velocity gradient (the first
eigenvalue reported by the external eigensolver). -/
theorem C1_stress_formula {d : ℕ} (cfg : HydroConfig) (r : ℚ)
    (pin : QPointIn d) (dt : RVal) (hdet : 0 < pin.detJ) :
    ∃ out, pointUpdate cfg r pin dt = Except.ok out ∧
      out.stress =
        (-(cfg.pressure (r / pin.detJ / pin.weight) (max 0 pin.e_val))) •
          (1 : Matrix (Fin d) (Fin d) ℚ) +
        (if cfg.use_viscosity
         then
           (2 * (r / pin.detJ / pin.weight) * pin.h * pin.h * |pin.mu| +
             (if pin.mu < 0
              then (1/2) * (r / pin.detJ / pin.weight) * pin.h * pin.soundSpeed
              else 0)) • symmetrize pin.grad_v
         else 0) ∧
      out.stressJinvT = (pin.weight * pin.detJ) •
        (out.stress * (calcInverse pin.Jpr).transpose) := by
  refine ⟨_, pointUpdate_ok_eq cfg r pin dt hdet, ?_, rfl⟩
  rw [pointStress_closed_form]
  unfold viscCoeff pointRho
  rfl

/-- Witness for C1 at a concrete compressing point with viscosity on. -/
theorem C1_stress_formula_witness :
    (0 : ℚ) < pinU.detJ ∧
    (∃ out, pointUpdate cfgV 1 pinU (RVal.fin 1) = Except.ok out ∧
      out.stress =
        (-(cfgV.pressure (1 / pinU.detJ / pinU.weight) (max 0 pinU.e_val))) •
          (1 : Matrix (Fin 2) (Fin 2) ℚ) +
        (if cfgV.use_viscosity
         then
           (2 * (1 / pinU.detJ / pinU.weight) * pinU.h * pinU.h * |pinU.mu| +
             (if pinU.mu < 0
              then (1/2) * (1 / pinU.detJ / pinU.weight) * pinU.h * pinU.soundSpeed
              else 0)) • symmetrize pinU.grad_v
         else 0) ∧
      out.stressJinvT = (pinU.weight * pinU.detJ) •
        (out.stress * (calcInverse pinU.Jpr).transpose)) :=
  ⟨by norm_num [pinU],
   C1_stress_formula cfgV 1 pinU (RVal.fin 1) (by norm_num [pinU])⟩

/-- A successful sweep visited only points with positive determinant. -/
theorem sweep_ok_detJ {d : ℕ} (cfg : HydroConfig) (pins : List (QPointIn d)) :
    ∀ (k : ℕ) (qd qd1 : QuadDataM d), sweep cfg k pins qd = Except.ok qd1 →
      ∀ pin ∈ pins, 0 < pin.detJ := by
  induction pins with
  | nil => intro k qd qd1 h pin hm; exact absurd hm (List.not_mem_nil pin)
  | cons p rest ih =>
    intro k qd qd1 h pin hm
    unfold sweep at h
    cases hp : pointUpdate cfg (qd.rho0DetJ0w k) p qd.dt_est with
    | error f => rw [hp] at h; exact Except.noConfusion h
    | ok out =>
      rw [hp] at h
      rcases List.mem_cons.mp hm with rfl | hm2
      · exact pointUpdate_ok_detJ hp
      · exact ih (k+1) _ _ h pin hm2

/-- C2: a non-positive Jacobian determinant (including exactly zero) makes
the per-point evaluation fail fatally with the geometry fault before any
per-point physical quantity is computed from that `detJ`, and makes the
whole quadrature update return the fault instead of silently continuing. -/
theorem C2_geometry_fault {d : ℕ} :
    (∀ (cfg : HydroConfig) (r : ℚ) (pin : QPointIn d) (dt : RVal),
        pin.detJ ≤ 0 →
        pointUpdate cfg r pin dt =
          Except.error (HydroFault.geometryFault pin.detJ)) ∧
    (∀ (cfg : HydroConfig) (pins : List (QPointIn d)) (s : HydroState d),
        s.quad_data_is_current = false →
        (∃ pin ∈ pins, pin.detJ ≤ 0) →
        ∃ f, updateQuadratureData cfg pins s = Except.error f) := by
  constructor
  · intro cfg r pin dt hd
    unfold pointUpdate
    rw [if_neg (not_lt.mpr hd)]
  · intro cfg pins s hflag hbad
    unfold updateQuadratureData
    rw [if_neg (by simp [hflag])]
    cases hs : sweep cfg 0 pins s.qd with
    | error f => exact ⟨f, rfl⟩
    | ok qd1 =>
      obtain ⟨pin, hm, hd⟩ := hbad
      exact absurd (sweep_ok_detJ cfg pins 0 s.qd qd1 hs pin hm) (not_lt.mpr hd)

/-- Witness for C2 at a concrete point whose determinant is exactly 0. -/
theorem C2_geometry_fault_witness :
    pinBad.detJ ≤ 0 ∧
    pointUpdate cfgN 1 pinBad (RVal.fin 1) =
      Except.error (HydroFault.geometryFault pinBad.detJ) ∧
    sA.quad_data_is_current = false ∧
    (∃ pin ∈ [pinBad], pin.detJ ≤ 0) ∧
    ∃ f, updateQuadratureData cfgN [pinBad] sA = Except.error f :=
  ⟨by norm_num [pinBad, pinU],
   (C2_geometry_fault).1 cfgN 1 pinBad (RVal.fin 1) (by norm_num [pinBad, pinU]),
   rfl,
   ⟨pinBad, by simp, by norm_num [pinBad, pinU]⟩,
   (C2_geometry_fault).2 cfgN [pinBad] sA rfl
     ⟨pinBad, by simp, by norm_num [pinBad, pinU]⟩⟩

/-- C4: the quadrature update is memoized — when `quad_data_is_current` is
set the update returns the state unmodified; any successful full
recomputation leaves the flag set; and every derivative evaluation (`Mult`)
exits with the flag cleared so the next call recomputes from scratch. -/
theorem C4_memoization {d : ℕ} :
    (∀ (cfg : HydroConfig) (pins : List (QPointIn d)) (s : HydroState d),
        s.quad_data_is_current = true →
        updateQuadratureData cfg pins s = Except.ok s) ∧
    (∀ (cfg : HydroConfig) (pins : List (QPointIn d)) (s s1 : HydroState d),
        updateQuadratureData cfg pins s = Except.ok s1 →
        s1.quad_data_is_current = true) ∧
    (∀ (α : Type) (cfg : HydroConfig) (pins : List (QPointIn d))
        (solves : HydroState d → α) (s : HydroState d) (r : α × HydroState d),
        multHydro cfg pins solves s = Except.ok r →
        r.2.quad_data_is_current = false) := by
  refine ⟨?_, ?_, ?_⟩
  · intro cfg pins s hs
    unfold updateQuadratureData
    rw [if_pos hs]
  · intro cfg pins s s1 h
    unfold updateQuadratureData at h
    by_cases hs : s.quad_data_is_current = true
    · rw [if_pos hs] at h
      injection h with h
      rw [← h]
      exact hs
    · rw [if_neg hs] at h
      cases hw : sweep cfg 0 pins s.qd with
      | error f => rw [hw] at h; exact Except.noConfusion h
      | ok qd1 =>
        rw [hw] at h
        injection h with h
        rw [← h]
  · intro α cfg pins solves s r h
    unfold multHydro at h
    cases hu : updateQuadratureData cfg pins s with
    | error f => rw [hu] at h; exact Except.noConfusion h
    | ok s1 =>
      rw [hu] at h
      injection h with h
      rw [← h]

/-- Witness for C4 on a concrete current state, a concrete stale state and
a concrete derivative evaluation. -/
theorem C4_memoization_witness :
    sT.quad_data_is_current = true ∧
    updateQuadratureData cfgN ([] : List (QPointIn 2)) sT = Except.ok sT ∧
    (HydroState.mk qdBase true).quad_data_is_current = true ∧
    ((RVal.fin 1, HydroState.mk qdBase false) : RVal × HydroState 2).2.quad_data_is_current
      = false :=
  ⟨rfl,
   (C4_memoization).1 cfgN [] sT rfl,
   (C4_memoization).2.1 cfgN [] sA (HydroState.mk qdBase true) rfl,
   (C4_memoization).2.2 RVal cfgN [] (fun s => s.qd.dt_est) sA
     (RVal.fin 1, HydroState.mk qdBase false) rfl⟩

/-- `leb` is reflexive. -/
theorem leb_refl (a : RVal) : RVal.leb a a = true := by
  simp [RVal.leb]

/-- The strict order on non-`NaN` values is transitive. -/
theorem ltb_trans {a b c : RVal} (h1 : RVal.ltb a b = true)
    (h2 : RVal.ltb b c = true) : RVal.ltb a c = true := by
  cases a <;> cases b <;> cases c <;> simp_all [RVal.ltb]
  exact lt_trans h1 h2

/-- The reflexive order `leb` is transitive. -/
theorem leb_trans {a b c : RVal} (h1 : RVal.leb a b = true)
    (h2 : RVal.leb b c = true) : RVal.leb a c = true := by
  simp only [RVal.leb, Bool.or_eq_true, decide_eq_true_eq] at h1 h2 ⊢
  rcases h1 with rfl | h1
  · exact h2
  · rcases h2 with rfl | h2
    · exact Or.inr h1
    · exact Or.inr (ltb_trans h1 h2)

/-- The C++ minimum never exceeds its first argument. -/
theorem cppMin_leb_left (a b : RVal) : RVal.leb (cppMin a b) a = true := by
  unfold cppMin
  by_cases h : RVal.ltb b a = true
  · simp [h, RVal.leb]
  · simp [h, leb_refl]

/-- The estimate threaded by a successful sweep only decreases. -/
theorem sweep_dt_leb {d : ℕ} (cfg : HydroConfig) (pins : List (QPointIn d)) :
    ∀ (k : ℕ) (qd qd1 : QuadDataM d), sweep cfg k pins qd = Except.ok qd1 →
      RVal.leb qd1.dt_est qd.dt_est = true := by
  induction pins with
  | nil =>
    intro k qd qd1 h
    unfold sweep at h
    injection h with h
    rw [← h]
    exact leb_refl _
  | cons p rest ih =>
    intro k qd qd1 h
    unfold sweep at h
    cases hp : pointUpdate cfg (qd.rho0DetJ0w k) p qd.dt_est with
    | error f => rw [hp] at h; exact Except.noConfusion h
    | ok out =>
      rw [hp] at h
      have step := ih (k+1) _ _ h
      refine leb_trans step ?_
      rw [pointUpdate_ok_dt hp]
      exact cppMin_leb_left _ _

/-- C5 amended: `ResetTimeStepEstimate` (a separate entry point invoked by
the outer driver, not by the evaluation itself) sets the estimate to
`+inf`; during the quadrature sweep each point replaces the estimate by the
C++ minimum of the current estimate and its candidate
`cfl * h / sound_speed`, so a successful sweep only ever decreases the
estimate. -/
theorem C5_dt_reset_and_monotone {d : ℕ} :
    (∀ qd : QuadDataM d, (resetTimeStepEstimate qd).dt_est = RVal.inf) ∧
    (∀ (cfg : HydroConfig) (r : ℚ) (pin : QPointIn d) (dt : RVal)
        (out : QPointOut d),
        pointUpdate cfg r pin dt = Except.ok out →
        out.dt_est = cppMin dt (ieeeDiv (cfg.cfl * pin.h) pin.soundSpeed)) ∧
    (∀ (cfg : HydroConfig) (pins : List (QPointIn d)) (k : ℕ)
        (qd qd1 : QuadDataM d),
        sweep cfg k pins qd = Except.ok qd1 →
        RVal.leb qd1.dt_est qd.dt_est = true) := by
  refine ⟨fun qd => rfl, ?_, ?_⟩
  · intro cfg r pin dt out h
    exact pointUpdate_ok_dt h
  · intro cfg pins k qd qd1 h
    exact sweep_dt_leb cfg pins k qd qd1 h

/-- Witness for the amended C5 at concrete inputs. -/
theorem C5_dt_reset_and_monotone_witness :
    (resetTimeStepEstimate qdBase).dt_est = RVal.inf ∧
    (∃ out, pointUpdate cfgN 1 pinU (RVal.fin 1) = Except.ok out ∧
      out.dt_est =
        cppMin (RVal.fin 1) (ieeeDiv (cfgN.cfl * pinU.h) pinU.soundSpeed)) ∧
    RVal.leb qdBase.dt_est qdBase.dt_est = true :=
  ⟨(C5_dt_reset_and_monotone).1 qdBase,
   ⟨_, rfl, (C5_dt_reset_and_monotone).2.1 cfgN 1 pinU (RVal.fin 1) _ rfl⟩,
   (C5_dt_reset_and_monotone).2.2 cfgN [] 0 qdBase qdBase rfl⟩

/-- C5 counterexample: the claim says the estimate is reset to `+inf`
before each evaluation, so the result of an evaluation would not depend on
the incoming estimate; but running the same update on two states that
differ only in the incoming `dt_est` (1 versus `+inf`, candidate 2) yields
different results — the evaluation keeps the stale incoming estimate and
never resets it (only the separate `ResetTimeStepEstimate` entry point
does, and the code of this repository never calls it before an
evaluation). -/
theorem C5_counterexample :
    dtOf (updateQuadratureData cfgN pins1 sA) = some (RVal.fin 1) ∧
    dtOf (updateQuadratureData cfgN pins1 sB) = some (RVal.fin 2) := by
  constructor <;>
    norm_num [dtOf, updateQuadratureData, sweep, pointUpdate, cppMin,
      ieeeDiv, RVal.ltb, sA, sB, pins1, pinU, qdBase, cfgN, cfgV]

/-- C6 counterexample: with partial assembly disabled the derivative
evaluation does not solve the energy mass-matrix system with a CG solver at
all — it applies the precomputed zone-local dense inverses `Me_inv`
(`laghos_solver.cpp` lines 304-325) — refuting the claim that every
derivative evaluation solves the energy system via CG(1e-8, 0, 200). -/
theorem C6_counterexample :
    energySolveMethod false ≠ SolveMethod.cg (1/100000000) 0 200 false := by
  simp [energySolveMethod]

/-- C6 amended: a derivative evaluation with partial assembly enabled
solves the energy mass-matrix system via a conjugate-gradient solver with
relative tolerance 1e-8, absolute tolerance 0, at most 200 iterations and
no essential dofs eliminated; with partial assembly disabled the energy
system is instead solved by the precomputed local mass-matrix inverses. -/
theorem C6_energy_solver_config :
    energySolveMethod true = SolveMethod.cg (1/100000000) 0 200 false ∧
    energySolveMethod false = SolveMethod.localMassInverse :=
  ⟨rfl, rfl⟩

/-- The C++ minimum of anything with `+inf` is the first argument. -/
theorem cppMin_inf (a : RVal) : cppMin a RVal.inf = a := by
  cases a <;> rfl

/-- C7: at a quadrature point whose specific energy value is non-positive
the sound speed `sqrt(gamma*(gamma-1)*max(0,e))` is exactly zero, the CFL
candidate `cfl*h/soundSpeed` evaluates (under IEEE-754 semantics, with
`cfl*h > 0`) to `+inf` — an unbounded candidate, not a NaN — and folding it
into the running minimum leaves the time-step estimate unchanged, so no NaN
is produced or propagated. -/
theorem C7_zero_energy_no_nan {d : ℕ} (cfg : HydroConfig) (r : ℚ)
    (pin : QPointIn d) (dt : RVal)
    (hdet : 0 < pin.detJ) (he : pin.e_val ≤ 0)
    (hc2 : pin.soundSpeed * pin.soundSpeed =
      cfg.gamma * (cfg.gamma - 1) * max 0 pin.e_val)
    (hch : 0 < cfg.cfl * pin.h) :
    pin.soundSpeed = 0 ∧
    ieeeDiv (cfg.cfl * pin.h) pin.soundSpeed = RVal.inf ∧
    ∃ out, pointUpdate cfg r pin dt = Except.ok out ∧
      out.dt_est = dt ∧ (dt ≠ RVal.nan → out.dt_est ≠ RVal.nan) := by
  have hmax : max 0 pin.e_val = 0 := max_eq_left he
  have hcz : pin.soundSpeed = 0 := by
    rw [hmax, mul_zero] at hc2
    exact mul_self_eq_zero.mp hc2
  have hdiv : ieeeDiv (cfg.cfl * pin.h) pin.soundSpeed = RVal.inf := by
    unfold ieeeDiv
    rw [hcz, if_pos rfl, if_pos hch]
  refine ⟨hcz, hdiv, _, pointUpdate_ok_eq cfg r pin dt hdet, ?_, ?_⟩
  · show cppMin dt (ieeeDiv (cfg.cfl * pin.h) pin.soundSpeed) = dt
    rw [hdiv, cppMin_inf]
  · intro hnan
    show cppMin dt (ieeeDiv (cfg.cfl * pin.h) pin.soundSpeed) ≠ RVal.nan
    rw [hdiv, cppMin_inf]
    exact hnan

/-- Witness for C7 at a concrete zero-energy point. -/
theorem C7_zero_energy_no_nan_witness :
    (0 : ℚ) < pinZ.detJ ∧ pinZ.e_val ≤ 0 ∧
    pinZ.soundSpeed * pinZ.soundSpeed =
      cfgV.gamma * (cfgV.gamma - 1) * max 0 pinZ.e_val ∧
    (0 : ℚ) < cfgV.cfl * pinZ.h ∧
    (pinZ.soundSpeed = 0 ∧
     ieeeDiv (cfgV.cfl * pinZ.h) pinZ.soundSpeed = RVal.inf ∧
     ∃ out, pointUpdate cfgV 1 pinZ (RVal.fin 1) = Except.ok out ∧
       out.dt_est = RVal.fin 1 ∧
       (RVal.fin 1 ≠ RVal.nan → out.dt_est ≠ RVal.nan)) :=
  ⟨by norm_num [pinZ, pinU], by norm_num [pinZ, pinU],
   by norm_num [pinZ, pinU, cfgV], by norm_num [pinZ, pinU, cfgV],
   C7_zero_energy_no_nan cfgV 1 pinZ (RVal.fin 1)
     (by norm_num [pinZ, pinU]) (by norm_num [pinZ, pinU])
     (by norm_num [pinZ, pinU, cfgV])
     (by norm_num [pinZ, pinU, cfgV])⟩

/-- Frame property of the sweep: it never writes the store's `stress`,
`Jac`, `Jac0inv`, `rho0DetJ0w` or `h0` fields, nor any `stressJinvT` entry
below its starting index. -/
theorem sweep_preserves {d : ℕ} (cfg : HydroConfig)
    (pins : List (QPointIn d)) :
    ∀ (k : ℕ) (qd qd1 : QuadDataM d), sweep cfg k pins qd = Except.ok qd1 →
      qd1.stress = qd.stress ∧ qd1.Jac = qd.Jac ∧
      qd1.Jac0inv = qd.Jac0inv ∧ qd1.rho0DetJ0w = qd.rho0DetJ0w ∧
      qd1.h0 = qd.h0 ∧
      ∀ j, j < k → qd1.stressJinvT j = qd.stressJinvT j := by
  induction pins with
  | nil =>
    intro k qd qd1 h
    unfold sweep at h
    injection h with h
    rw [← h]
    exact ⟨rfl, rfl, rfl, rfl, rfl, fun j _ => rfl⟩
  | cons p rest ih =>
    intro k qd qd1 h
    unfold sweep at h
    cases hp : pointUpdate cfg (qd.rho0DetJ0w k) p qd.dt_est with
    | error f => rw [hp] at h; exact Except.noConfusion h
    | ok out =>
      rw [hp] at h
      obtain ⟨h1, h2, h3, h4, h5, h6⟩ := ih (k+1) _ _ h
      refine ⟨h1, h2, h3, h4, h5, fun j hj => ?_⟩
      rw [h6 j (Nat.lt_succ_of_lt hj)]
      exact Function.update_noteq (Nat.ne_of_lt hj) _ _

/-- Two sweeps over the same inputs from stores that agree on the reference
densities and the incoming estimate produce the same `stressJinvT` entries
on the visited range and the same final estimate — the recomputed data does
not depend on the store's previous `stress`, `Jac` or `stressJinvT`
contents. -/
theorem sweep_agree {d : ℕ} (cfg : HydroConfig) (pins : List (QPointIn d)) :
    ∀ (k : ℕ) (qx qy qx1 qy1 : QuadDataM d),
      qx.rho0DetJ0w = qy.rho0DetJ0w → qx.dt_est = qy.dt_est →
      sweep cfg k pins qx = Except.ok qx1 →
      sweep cfg k pins qy = Except.ok qy1 →
      (∀ j, k ≤ j → j < k + pins.length →
        qx1.stressJinvT j = qy1.stressJinvT j) ∧
      qx1.dt_est = qy1.dt_est := by
  induction pins with
  | nil =>
    intro k qx qy qx1 qy1 hrho hdt hx hy
    unfold sweep at hx hy
    injection hx with hx
    injection hy with hy
    rw [← hx, ← hy]
    refine ⟨fun j h1 h2 => absurd h2 ?_, hdt⟩
    simp only [List.length_nil, Nat.add_zero]
    omega
  | cons p rest ih =>
    intro k qx qy qx1 qy1 hrho hdt hx hy
    unfold sweep at hx hy
    have harg : pointUpdate cfg (qy.rho0DetJ0w k) p qy.dt_est =
        pointUpdate cfg (qx.rho0DetJ0w k) p qx.dt_est := by
      rw [← hrho, ← hdt]
    rw [harg] at hy
    cases hp : pointUpdate cfg (qx.rho0DetJ0w k) p qx.dt_est with
    | error f => rw [hp] at hx; exact Except.noConfusion hx
    | ok out =>
      rw [hp] at hx hy
      have hrho2 :
          (QuadDataM.mk qx.stress qx.Jac qx.Jac0inv
            (Function.update qx.stressJinvT k out.stressJinvT)
            qx.rho0DetJ0w qx.h0 out.dt_est).rho0DetJ0w =
          (QuadDataM.mk qy.stress qy.Jac qy.Jac0inv
            (Function.update qy.stressJinvT k out.stressJinvT)
            qy.rho0DetJ0w qy.h0 out.dt_est).rho0DetJ0w := hrho
      obtain ⟨hagree, hdt2⟩ := ih (k+1) _ _ _ _ hrho2 rfl hx hy
      obtain ⟨-, -, -, -, -, hxlow⟩ := sweep_preserves cfg rest (k+1) _ _ hx
      obtain ⟨-, -, -, -, -, hylow⟩ := sweep_preserves cfg rest (k+1) _ _ hy
      refine ⟨fun j h1 h2 => ?_, hdt2⟩
      rcases Nat.eq_or_lt_of_le h1 with heq | hgt
      · subst heq
        rw [hxlow k (Nat.lt_succ_self k), hylow k (Nat.lt_succ_self k)]
        show Function.update qx.stressJinvT k out.stressJinvT k =
          Function.update qy.stressJinvT k out.stressJinvT k
        rw [Function.update_same, Function.update_same]
      · refine hagree j hgt ?_
        simp only [List.length_cons] at h2
        omega

/-- C8 amended: a (non-memoized) call to the quadrature update engine
leaves the store's `stress`, `Jac`, `Jac0inv`, `rho0DetJ0w` and `h0` fields
untouched; the per-point `stressJinvT` entries it writes are recomputed
wholesale — they depend only on the inputs, the reference densities and the
incoming estimate, not on any previously stored `stress`, `Jac` or
`stressJinvT` values — and the final estimate likewise.  (The engine writes
only `stressJinvT` and `dt_est`; the header's `stress` and `Jac` tensors
are never written by `UpdateQuadratureData`.) -/
theorem C8_update_frame_and_recompute {d : ℕ}
    (cfg : HydroConfig) (pins : List (QPointIn d))
    (sx sy tx ty : HydroState d)
    (hx : updateQuadratureData cfg pins sx = Except.ok tx)
    (hy : updateQuadratureData cfg pins sy = Except.ok ty)
    (hfx : sx.quad_data_is_current = false)
    (hfy : sy.quad_data_is_current = false)
    (hrho : sx.qd.rho0DetJ0w = sy.qd.rho0DetJ0w)
    (hdt : sx.qd.dt_est = sy.qd.dt_est) :
    tx.qd.stress = sx.qd.stress ∧ tx.qd.Jac = sx.qd.Jac ∧
    tx.qd.Jac0inv = sx.qd.Jac0inv ∧ tx.qd.rho0DetJ0w = sx.qd.rho0DetJ0w ∧
    tx.qd.h0 = sx.qd.h0 ∧
    (∀ k, k < pins.length → tx.qd.stressJinvT k = ty.qd.stressJinvT k) ∧
    tx.qd.dt_est = ty.qd.dt_est := by
  unfold updateQuadratureData at hx hy
  rw [if_neg (by simp [hfx])] at hx
  rw [if_neg (by simp [hfy])] at hy
  cases hsx : sweep cfg 0 pins sx.qd with
  | error f => rw [hsx] at hx; exact Except.noConfusion hx
  | ok qdx =>
    rw [hsx] at hx
    cases hsy : sweep cfg 0 pins sy.qd with
    | error f => rw [hsy] at hy; exact Except.noConfusion hy
    | ok qdy =>
      rw [hsy] at hy
      injection hx with hx
      injection hy with hy
      obtain ⟨p1, p2, p3, p4, p5, -⟩ :=
        sweep_preserves cfg pins 0 sx.qd qdx hsx
      obtain ⟨hagree, hdt2⟩ :=
        sweep_agree cfg pins 0 sx.qd sy.qd qdx qdy hrho hdt hsx hsy
      rw [← hx, ← hy]
      exact ⟨p1, p2, p3, p4, p5,
        fun k hk => hagree k (Nat.zero_le k) (by omega), hdt2⟩

/-- Witness for the amended C8 on a concrete pair of runs. -/
theorem C8_update_frame_and_recompute_witness :
    updateQuadratureData cfgN ([] : List (QPointIn 2)) sA =
      Except.ok (HydroState.mk qdBase true) ∧
    sA.quad_data_is_current = false ∧
    sA.qd.rho0DetJ0w = sA.qd.rho0DetJ0w ∧ sA.qd.dt_est = sA.qd.dt_est ∧
    ((HydroState.mk qdBase true).qd.stress = sA.qd.stress ∧
     (HydroState.mk qdBase true).qd.Jac = sA.qd.Jac ∧
     (HydroState.mk qdBase true).qd.Jac0inv = sA.qd.Jac0inv ∧
     (HydroState.mk qdBase true).qd.rho0DetJ0w = sA.qd.rho0DetJ0w ∧
     (HydroState.mk qdBase true).qd.h0 = sA.qd.h0 ∧
     (∀ k, k < ([] : List (QPointIn 2)).length →
       (HydroState.mk qdBase true).qd.stressJinvT k =
         (HydroState.mk qdBase true).qd.stressJinvT k) ∧
     (HydroState.mk qdBase true).qd.dt_est =
       (HydroState.mk qdBase true).qd.dt_est) :=
  ⟨rfl, rfl, rfl, rfl,
   C8_update_frame_and_recompute cfgN [] sA sA
     (HydroState.mk qdBase true) (HydroState.mk qdBase true)
     rfl rfl rfl rfl rfl rfl⟩

/-- C8 counterexample: the claim says the store's per-point `stress` field
is recomputed (written) on every update call; but two updates over the same
inputs from stores that differ only in the previously stored `stress`
values succeed and return stores whose `stress` fields still differ — each
store keeps its old `stress` contents, so the field is not written, let
alone recomputed wholesale. -/
theorem C8_counterexample :
    stressAt0 (updateQuadratureData cfgN pins1 sA) = some 0 ∧
    stressAt0 (updateQuadratureData cfgN pins1 sD) = some 1 ∧
    (0 : Matrix (Fin 2) (Fin 2) ℚ) ≠ 1 := by
  refine ⟨?_, ?_, ?_⟩
  · norm_num [stressAt0, updateQuadratureData, sweep, pointUpdate,
      sA, sD, pins1, pinU, qdBase, cfgN, cfgV]
  · norm_num [stressAt0, updateQuadratureData, sweep, pointUpdate,
      sA, sD, pins1, pinU, qdBase, cfgN, cfgV]
  · intro h
    have h00 := congrFun (congrFun h 0) 0
    simp [Matrix.one_apply] at h00

/-- A guarded sum can be pushed inside the summation. -/
theorem ite_sum_zero {c : Prop} [Decidable c] {β : Type} [Fintype β]
    (f : β → ℚ) :
    (if c then (∑ x, f x) else 0) = ∑ x, (if c then f x else 0) := by
  split
  · rfl
  · simp

/-- Multiplication on the right distributes over a guarded term. -/
theorem ite_mul_zero {c : Prop} [Decidable c] (a b : ℚ) :
    (if c then a else 0) * b = if c then a * b else 0 := by
  split <;> simp

/-- Multiplication on the left distributes over a guarded term. -/
theorem mul_ite_zeroQ {c : Prop} [Decidable c] (a b : ℚ) :
    a * (if c then b else 0) = if c then a * b else 0 := by
  split <;> simp

/-- Expansion of `dot(mult u, w)` as a sum over zones and local dofs. -/
theorem mult_dot_expand {nz lH lL NH NL : ℕ}
    (m : ForcePAModel nz lH lL NH NL) (u : Fin NL → ℚ) (w : Fin NH → ℚ) :
    dotQ (m.mult u) w =
      ∑ z, ∑ li, ∑ lj,
        m.localF z li lj * u (m.l2map z lj) * w (m.h1map z li) := by
  unfold dotQ ForcePAModel.mult
  calc
    (∑ i, (∑ z, ∑ li,
        if m.h1map z li = i
        then ∑ lj, m.localF z li lj * u (m.l2map z lj) else 0) * w i)
      = ∑ i, ∑ z, ∑ li,
          (if m.h1map z li = i
           then (∑ lj, m.localF z li lj * u (m.l2map z lj)) * w i else 0) := by
        refine Finset.sum_congr rfl fun i _ => ?_
        rw [Finset.sum_mul]
        refine Finset.sum_congr rfl fun z _ => ?_
        rw [Finset.sum_mul]
        exact Finset.sum_congr rfl fun li _ => ite_mul_zero _ _
    _ = ∑ z, ∑ i, ∑ li,
          (if m.h1map z li = i
           then (∑ lj, m.localF z li lj * u (m.l2map z lj)) * w i else 0) :=
        Finset.sum_comm
    _ = ∑ z, ∑ li, ∑ i,
          (if m.h1map z li = i
           then (∑ lj, m.localF z li lj * u (m.l2map z lj)) * w i else 0) :=
        Finset.sum_congr rfl fun z _ => Finset.sum_comm
    _ = ∑ z, ∑ li,
          (∑ lj, m.localF z li lj * u (m.l2map z lj)) * w (m.h1map z li) := by
        refine Finset.sum_congr rfl fun z _ => Finset.sum_congr rfl fun li _ => ?_
        rw [Finset.sum_ite_eq]
        simp
    _ = ∑ z, ∑ li, ∑ lj,
          m.localF z li lj * u (m.l2map z lj) * w (m.h1map z li) :=
        Finset.sum_congr rfl fun z _ => Finset.sum_congr rfl fun li _ =>
          Finset.sum_mul _ _ _

/-- Expansion of `dot(u, multTranspose w)` as a sum over zones and local
dofs. -/
theorem multTranspose_dot_expand {nz lH lL NH NL : ℕ}
    (m : ForcePAModel nz lH lL NH NL) (u : Fin NL → ℚ) (w : Fin NH → ℚ) :
    dotQ u (m.multTranspose w) =
      ∑ z, ∑ lj, ∑ li,
        u (m.l2map z lj) * (m.localF z li lj * w (m.h1map z li)) := by
  unfold dotQ ForcePAModel.multTranspose
  calc
    (∑ j, u j * (∑ z, ∑ lj,
        if m.l2map z lj = j
        then ∑ li, m.localF z li lj * w (m.h1map z li) else 0))
      = ∑ j, ∑ z, ∑ lj,
          (if m.l2map z lj = j
           then u j * (∑ li, m.localF z li lj * w (m.h1map z li)) else 0) := by
        refine Finset.sum_congr rfl fun j _ => ?_
        rw [Finset.mul_sum]
        refine Finset.sum_congr rfl fun z _ => ?_
        rw [Finset.mul_sum]
        exact Finset.sum_congr rfl fun lj _ => mul_ite_zeroQ _ _
    _ = ∑ z, ∑ j, ∑ lj,
          (if m.l2map z lj = j
           then u j * (∑ li, m.localF z li lj * w (m.h1map z li)) else 0) :=
        Finset.sum_comm
    _ = ∑ z, ∑ lj, ∑ j,
          (if m.l2map z lj = j
           then u j * (∑ li, m.localF z li lj * w (m.h1map z li)) else 0) :=
        Finset.sum_congr rfl fun z _ => Finset.sum_comm
    _ = ∑ z, ∑ lj,
          u (m.l2map z lj) * (∑ li, m.localF z li lj * w (m.h1map z li)) := by
        refine Finset.sum_congr rfl fun z _ => Finset.sum_congr rfl fun lj _ => ?_
        rw [Finset.sum_ite_eq]
        simp
    _ = ∑ z, ∑ lj, ∑ li,
          u (m.l2map z lj) * (m.localF z li lj * w (m.h1map z li)) :=
        Finset.sum_congr rfl fun z _ => Finset.sum_congr rfl fun lj _ =>
          Finset.mul_sum _ _ _

/-- C3: for arbitrary vectors `u` on the energy space and `w` on the
velocity space, `dot(mult u, w) = dot(u, multTranspose w)` in exact
arithmetic, and both `mult` and `multTranspose` are linear — the matrix-free
force operator and its transpose are exact adjoints of each other. -/
theorem C3_force_adjoint_linear {nz lH lL NH NL : ℕ}
    (m : ForcePAModel nz lH lL NH NL) :
    (∀ (u : Fin NL → ℚ) (w : Fin NH → ℚ),
      dotQ (m.mult u) w = dotQ u (m.multTranspose w)) ∧
    (∀ (a : ℚ) (u v : Fin NL → ℚ) (i : Fin NH),
      m.mult (fun j => a * u j + v j) i = a * m.mult u i + m.mult v i) ∧
    (∀ (a : ℚ) (w x : Fin NH → ℚ) (j : Fin NL),
      m.multTranspose (fun i => a * w i + x i) j =
        a * m.multTranspose w j + m.multTranspose x j) := by
  refine ⟨?_, ?_, ?_⟩
  · intro u w
    rw [mult_dot_expand, multTranspose_dot_expand]
    refine Finset.sum_congr rfl fun z _ => ?_
    rw [Finset.sum_comm]
    exact Finset.sum_congr rfl fun lj _ => Finset.sum_congr rfl fun li _ => by
      ring
  · intro a u v i
    unfold ForcePAModel.mult
    calc
      (∑ z, ∑ li,
          if m.h1map z li = i
          then ∑ lj, m.localF z li lj * (a * u (m.l2map z lj) + v (m.l2map z lj))
          else 0)
        = ∑ z, ∑ li,
            (a * (if m.h1map z li = i
                  then ∑ lj, m.localF z li lj * u (m.l2map z lj) else 0) +
             (if m.h1map z li = i
              then ∑ lj, m.localF z li lj * v (m.l2map z lj) else 0)) := by
          refine Finset.sum_congr rfl fun z _ => Finset.sum_congr rfl fun li _ => ?_
          split
          · rw [Finset.mul_sum, ← Finset.sum_add_distrib]
            exact Finset.sum_congr rfl fun lj _ => by ring
          · simp
      _ = a * (∑ z, ∑ li,
              if m.h1map z li = i
              then ∑ lj, m.localF z li lj * u (m.l2map z lj) else 0) +
          (∑ z, ∑ li,
              if m.h1map z li = i
              then ∑ lj, m.localF z li lj * v (m.l2map z lj) else 0) := by
          simp only [Finset.sum_add_distrib, Finset.mul_sum]
  · intro a w x j
    unfold ForcePAModel.multTranspose
    calc
      (∑ z, ∑ lj,
          if m.l2map z lj = j
          then ∑ li, m.localF z li lj * (a * w (m.h1map z li) + x (m.h1map z li))
          else 0)
        = ∑ z, ∑ lj,
            (a * (if m.l2map z lj = j
                  then ∑ li, m.localF z li lj * w (m.h1map z li) else 0) +
             (if m.l2map z lj = j
              then ∑ li, m.localF z li lj * x (m.h1map z li) else 0)) := by
          refine Finset.sum_congr rfl fun z _ => Finset.sum_congr rfl fun lj _ => ?_
          split
          · rw [Finset.mul_sum, ← Finset.sum_add_distrib]
            exact Finset.sum_congr rfl fun li _ => by ring
          · simp
      _ = a * (∑ z, ∑ lj,
              if m.l2map z lj = j
              then ∑ li, m.localF z li lj * w (m.h1map z li) else 0) +
          (∑ z, ∑ lj,
              if m.l2map z lj = j
              then ∑ li, m.localF z li lj * x (m.h1map z li) else 0) := by
          simp only [Finset.sum_add_distrib, Finset.mul_sum]

/-- The assembled force matrix applied to a vector agrees entry-by-entry
with the matrix-free application: both contract the same zone-local element
matrices through the same dof maps. -/
theorem fullMatrix_mulVec {nz lH lL NH NL : ℕ}
    (m : ForcePAModel nz lH lL NH NL) (u : Fin NL → ℚ) :
    m.fullMatrix.mulVec u = m.mult u := by
  funext i
  unfold Matrix.mulVec Matrix.dotProduct ForcePAModel.fullMatrix ForcePAModel.mult
  calc
    (∑ j, (Matrix.of fun i j => ∑ z, ∑ li, ∑ lj,
        if m.h1map z li = i ∧ m.l2map z lj = j
        then m.localF z li lj else 0) i j * u j)
      = ∑ j, ∑ z, ∑ li, ∑ lj,
          (if m.h1map z li = i ∧ m.l2map z lj = j
           then m.localF z li lj * u j else 0) := by
        refine Finset.sum_congr rfl fun j _ => ?_
        rw [Matrix.of_apply, Finset.sum_mul]
        refine Finset.sum_congr rfl fun z _ => ?_
        rw [Finset.sum_mul]
        refine Finset.sum_congr rfl fun li _ => ?_
        rw [Finset.sum_mul]
        exact Finset.sum_congr rfl fun lj _ => ite_mul_zero _ _
    _ = ∑ z, ∑ j, ∑ li, ∑ lj,
          (if m.h1map z li = i ∧ m.l2map z lj = j
           then m.localF z li lj * u j else 0) := Finset.sum_comm
    _ = ∑ z, ∑ li, ∑ j, ∑ lj,
          (if m.h1map z li = i ∧ m.l2map z lj = j
           then m.localF z li lj * u j else 0) :=
        Finset.sum_congr rfl fun z _ => Finset.sum_comm
    _ = ∑ z, ∑ li, ∑ lj, ∑ j,
          (if m.h1map z li = i ∧ m.l2map z lj = j
           then m.localF z li lj * u j else 0) :=
        Finset.sum_congr rfl fun z _ => Finset.sum_congr rfl fun li _ =>
          Finset.sum_comm
    _ = ∑ z, ∑ li, ∑ lj,
          (if m.h1map z li = i
           then m.localF z li lj * u (m.l2map z lj) else 0) := by
        refine Finset.sum_congr rfl fun z _ => Finset.sum_congr rfl fun li _ =>
          Finset.sum_congr rfl fun lj _ => ?_
        calc
          (∑ j, if m.h1map z li = i ∧ m.l2map z lj = j
              then m.localF z li lj * u j else 0)
            = ∑ j, (if m.h1map z li = i
                then (if m.l2map z lj = j then m.localF z li lj * u j else 0)
                else 0) :=
              Finset.sum_congr rfl fun j _ => by rw [ite_and]
          _ = (if m.h1map z li = i
               then ∑ j, (if m.l2map z lj = j then m.localF z li lj * u j else 0)
               else 0) := (ite_sum_zero _).symm
          _ = (if m.h1map z li = i
               then m.localF z li lj * u (m.l2map z lj) else 0) := by
              rw [Finset.sum_ite_eq]
              simp
    _ = ∑ z, ∑ li,
          (if m.h1map z li = i
           then ∑ lj, m.localF z li lj * u (m.l2map z lj) else 0) :=
        Finset.sum_congr rfl fun z _ => Finset.sum_congr rfl fun li _ =>
          (ite_sum_zero _).symm

/-- C9: the momentum right-hand sides of the partial-assembly branch
(matrix-free force application) and of the full-assembly branch (assembled
force matrix application) coincide in exact arithmetic, and hence so do the
constrained velocity mass solves: any solution of the partial-assembly
system equals any solution of the full-assembly system whenever the
constrained mass system has at most one solution.  The statement covers all
states (in particular the claimed uniform-velocity, viscosity-disabled
ones, which only influence the local force data). -/
theorem C9_pa_fa_momentum_equal {nz lH lL NH NL : ℕ}
    (m : ForcePAModel nz lH lL NH NL) (M : Matrix (Fin NH) (Fin NH) ℚ)
    (ess : Finset (Fin NH)) (dvPA dvFA : Fin NH → ℚ)
    (hM : ∀ v : Fin NH → ℚ, (∀ i ∈ ess, v i = 0) →
      (∀ i ∉ ess, M.mulVec v i = 0) → v = 0)
    (hPA : SolvesConstrained M ess (fun i => -(m.mult (fun _ => 1) i)) dvPA)
    (hFA : SolvesConstrained M ess
      (fun i => -(m.fullMatrix.mulVec (fun _ => 1) i)) dvFA) :
    dvPA = dvFA := by
  have hr : (fun i => -(m.fullMatrix.mulVec (fun _ => 1) i)) =
      fun i => -(m.mult (fun _ => 1) i) := by
    rw [fullMatrix_mulVec]
  rw [hr] at hFA
  have h0 : dvPA - dvFA = 0 := by
    apply hM
    · intro i hi
      show dvPA i - dvFA i = 0
      rw [hPA.1 i hi, hFA.1 i hi, sub_zero]
    · intro i hi
      rw [Matrix.mulVec_sub]
      show M.mulVec dvPA i - M.mulVec dvFA i = 0
      rw [hPA.2 i hi, hFA.2 i hi, sub_self]
  calc dvPA = dvPA - dvFA + dvFA := by rw [sub_add_cancel]
    _ = dvFA := by rw [h0, zero_add]

/-- Witness for C9 on a one-zone, one-dof model with the identity mass
matrix and no essential dofs. -/
theorem C9_pa_fa_momentum_equal_witness :
    (∀ v : Fin 1 → ℚ, (∀ i ∈ (∅ : Finset (Fin 1)), v i = 0) →
      (∀ i ∉ (∅ : Finset (Fin 1)),
        (1 : Matrix (Fin 1) (Fin 1) ℚ).mulVec v i = 0) → v = 0) ∧
    SolvesConstrained (1 : Matrix (Fin 1) (Fin 1) ℚ) ∅
      (fun i => -(mC9.mult (fun _ => 1) i)) (fun _ => -2) ∧
    SolvesConstrained (1 : Matrix (Fin 1) (Fin 1) ℚ) ∅
      (fun i => -(mC9.fullMatrix.mulVec (fun _ => 1) i)) (fun _ => -2) ∧
    (fun _ => (-2 : ℚ) : Fin 1 → ℚ) = fun _ => -2 := by
  have hmult : ∀ i : Fin 1, mC9.mult (fun _ => 1) i = 2 := by
    intro i
    unfold ForcePAModel.mult mC9
    norm_num [Fin.sum_univ_one, Fin.eq_zero i]
  have hM : ∀ v : Fin 1 → ℚ, (∀ i ∈ (∅ : Finset (Fin 1)), v i = 0) →
      (∀ i ∉ (∅ : Finset (Fin 1)),
        (1 : Matrix (Fin 1) (Fin 1) ℚ).mulVec v i = 0) → v = 0 := by
    intro v _ h2
    funext i
    have := h2 i (Finset.not_mem_empty i)
    rwa [Matrix.one_mulVec] at this
  have hPA : SolvesConstrained (1 : Matrix (Fin 1) (Fin 1) ℚ) ∅
      (fun i => -(mC9.mult (fun _ => 1) i)) (fun _ => -2) := by
    constructor
    · intro i hi
      exact absurd hi (Finset.not_mem_empty i)
    · intro i _
      rw [Matrix.one_mulVec]
      show (-2 : ℚ) = -(mC9.mult (fun _ => 1) i)
      rw [hmult i]
  have hFA : SolvesConstrained (1 : Matrix (Fin 1) (Fin 1) ℚ) ∅
      (fun i => -(mC9.fullMatrix.mulVec (fun _ => 1) i)) (fun _ => -2) := by
    constructor
    · intro i hi
      exact absurd hi (Finset.not_mem_empty i)
    · intro i _
      rw [Matrix.one_mulVec]
      show (-2 : ℚ) = -(mC9.fullMatrix.mulVec (fun _ => 1) i)
      rw [show mC9.fullMatrix.mulVec (fun _ => (1 : ℚ)) = mC9.mult (fun _ => 1) from
        fullMatrix_mulVec mC9 (fun _ => 1)]
      rw [hmult i]
  exact ⟨hM, hPA, hFA,
    C9_pa_fa_momentum_equal mC9 1 ∅ (fun _ => -2) (fun _ => -2) hM hPA hFA⟩

/-- The elimination fold zeroes exactly the listed entries. -/
theorem eliminateRHS_foldl {n : ℕ} (dofs : List (Fin n)) (b : Fin n → ℚ)
    (j : Fin n) :
    dofs.foldl (fun bb i => Function.update bb i 0) b j =
      if j ∈ dofs then 0 else b j := by
  induction dofs generalizing b with
  | nil => simp
  | cons i rest ih =>
    simp only [List.foldl_cons]
    rw [ih]
    by_cases hjr : j ∈ rest
    · simp [hjr]
    · by_cases hji : j = i
      · subst hji
        simp [hjr]
      · simp [hjr, hji, Function.update_noteq hji]

/-- C10: `MassPAOperator::EliminateRHS` sets exactly the entries of `b` at
the listed dof indices to 0 and leaves every other entry unchanged; the dof
array itself is not modified, only retained (as `ess_tdofs`) for subsequent
operator applications. -/
theorem C10_eliminate_rhs {n : ℕ} (dofs : List (Fin n)) (b : Fin n → ℚ) :
    (eliminateRHS dofs b).1 = dofs ∧
    (∀ j ∈ dofs, (eliminateRHS dofs b).2 j = 0) ∧
    (∀ j, j ∉ dofs → (eliminateRHS dofs b).2 j = b j) := by
  refine ⟨rfl, fun j hj => ?_, fun j hj => ?_⟩
  · show dofs.foldl (fun bb i => Function.update bb i 0) b j = 0
    rw [eliminateRHS_foldl, if_pos hj]
  · show dofs.foldl (fun bb i => Function.update bb i 0) b j = b j
    rw [eliminateRHS_foldl, if_neg hj]

/-- Witness for C10 on a concrete dof list and right-hand side. -/
theorem C10_eliminate_rhs_witness :
    (eliminateRHS dofs3 b3).1 = dofs3 ∧
    (0 : Fin 3) ∈ dofs3 ∧ (eliminateRHS dofs3 b3).2 0 = 0 ∧
    (1 : Fin 3) ∉ dofs3 ∧ (eliminateRHS dofs3 b3).2 1 = b3 1 :=
  ⟨(C10_eliminate_rhs dofs3 b3).1,
   by simp [dofs3],
   (C10_eliminate_rhs dofs3 b3).2.1 0 (by simp [dofs3]),
   by simp [dofs3],
   (C10_eliminate_rhs dofs3 b3).2.2 1 (by simp [dofs3])⟩
